import Mathlib

/-!
Verification of the stream_grep core: a shallow embedding of the search /
selection state machine of `src/app.rs` and of the process-capture worker
thread of `src/main.rs`, with theorems settling the specified properties.

The regex engine (`grep::regex::RegexMatcher`) is treated as an oracle: a
compile function of type `String → Option (String → Bool)` is passed as a
parameter wherever the code calls `RegexMatcher::new`; `none` models a
pattern whose compilation fails, and `some m` models a compiled matcher
with `m line = matcher.is_match(line.as_bytes()).unwrap_or(false)`.
-/

namespace StreamGrep

/-- Rust's `format!("{:5}", n)` for a natural number: the decimal digits,
right-aligned to width 5 with spaces (numbers with five or more digits are
printed in full). -/
def padNum (n : Nat) : String :=
  let s := toString n
  String.mk (List.replicate (5 - s.length) ' ') ++ s

/-- The display string pushed onto `filtered_lines` for the buffer line at
0-based index `idx`: `format!("{:5} | {}", idx + 1, line)`, as in
`App::add_output` and `App::update_search`. -/
def formatLine (idx : Nat) (line : String) : String :=
  padNum (idx + 1) ++ " | " ++ line

/-- Oracle for `RegexMatcher::new` + `Matcher::is_match`; see the module
doc comment. -/
abbrev ReCompile := String → Option (String → Bool)

/-- The core state of `App` (src/app.rs).  Fields that no claim touches
(`command_info`, `child_pid`, `active_panel`, `cursor_position`,
`theme_mode`) are omitted; all buffer / search / selection / lifecycle
fields are kept with their source names. -/
structure App where
  output_lines : List String
  filtered_lines : List String
  filtered_indices : List Nat
  selected_index : Nat
  preview_scroll : Nat
  running : Bool
  exit_code : Option Int
  search_query : String
deriving Repr, DecidableEq

/-- `App::new`: empty buffers, selection and scroll at 0, running, no exit
code, empty query. -/
def App.init : App :=
  { output_lines := [], filtered_lines := [], filtered_indices := [],
    selected_index := 0, preview_scroll := 0, running := true,
    exit_code := none, search_query := "" }

/-- `App::add_output`: push the line onto `output_lines` unconditionally;
with an empty query also push its formatted form and index onto the
filtered view; with a non-empty query do so only if the query compiles
and matches the line (a query that fails to compile adds nothing to the
filtered view).  The Rust code pushes onto `output_lines` before testing
the query; the query is unaffected by that push, so each branch here
carries the buffer push. -/
def add_output (c : ReCompile) (s : App) (line : String) : App :=
  let cur := s.output_lines.length
  if s.search_query = "" then
    { s with output_lines := s.output_lines ++ [line],
             filtered_lines := s.filtered_lines ++ [formatLine cur line],
             filtered_indices := s.filtered_indices ++ [cur] }
  else
    match c s.search_query with
    | some m =>
        if m line then
          { s with output_lines := s.output_lines ++ [line],
                   filtered_lines := s.filtered_lines ++ [formatLine cur line],
                   filtered_indices := s.filtered_indices ++ [cur] }
        else { s with output_lines := s.output_lines ++ [line] }
    | none => { s with output_lines := s.output_lines ++ [line] }

/-- `App::set_exit_code`. -/
def set_exit_code (s : App) (code : Int) : App :=
  { s with exit_code := some code, running := false }

/-- `App::update_preview_scroll`: no-op when the filtered view is empty or
the selection is out of range; otherwise scroll to three lines above the
selected line's buffer index. -/
def update_preview_scroll (s : App) : App :=
  if s.filtered_indices = [] ∨ s.filtered_indices.length ≤ s.selected_index then s
  else
    let originalIndex := s.filtered_indices.getD s.selected_index 0
    { s with preview_scroll := if 3 ≤ originalIndex then originalIndex - 3 else 0 }

/-- `App::select_next`: cyclic increment of the selection over
`filtered_lines`, then scroll update; no-op when `filtered_lines` is
empty. -/
def select_next (s : App) : App :=
  if s.filtered_lines = [] then s
  else
    update_preview_scroll
      { s with selected_index := (s.selected_index + 1) % s.filtered_lines.length }

/-- `App::select_prev`: cyclic decrement of the selection over
`filtered_lines`, then scroll update; no-op when `filtered_lines` is
empty. -/
def select_prev (s : App) : App :=
  if s.filtered_lines = [] then s
  else
    update_preview_scroll
      { s with selected_index :=
          if 0 < s.selected_index then s.selected_index - 1
          else s.filtered_lines.length - 1 }

/-- The rescan loop shared by the three branches of `App::update_search`:
walk the buffer from index `i`, pushing the formatted line and the index
for every line the matcher accepts. -/
def rescan (m : String → Bool) : Nat → List String → List String × List Nat
  | _, [] => ([], [])
  | i, l :: ls =>
    let rest := rescan m (i + 1) ls
    if m l then (formatLine i l :: rest.1, i :: rest.2) else rest

/-- `App::update_search`: clear the filtered view, reset the selection to
0, rescan the whole buffer (empty query or failed compilation accept every
line), then update the preview scroll.  The Rust code clears the two view
vectors and then refills them in a loop; clearing followed by refilling is
modeled as rebuilding them from `rescan`. -/
def update_search (c : ReCompile) (s : App) : App :=
  if s.search_query = "" then
    let fl := rescan (fun _ => true) 0 s.output_lines
    update_preview_scroll
      { s with filtered_lines := fl.1, filtered_indices := fl.2,
               selected_index := 0 }
  else
    match c s.search_query with
    | some m =>
        let fl := rescan m 0 s.output_lines
        update_preview_scroll
          { s with filtered_lines := fl.1, filtered_indices := fl.2,
                   selected_index := 0 }
    | none =>
        let fl := rescan (fun _ => true) 0 s.output_lines
        update_preview_scroll
          { s with filtered_lines := fl.1, filtered_indices := fl.2,
                   selected_index := 0 }

/-- The context line built by `App::get_context_for_selected` for buffer
index `j`: a marker (`"> "` on the selected underlying index, `"  "`
elsewhere) followed by the 1-based numbered line. -/
def lineTag (selIdx j : Nat) (line : String) : String :=
  (if j = selIdx then "> " else "  ") ++ formatLine j line

/-- `App::get_context_for_selected`: all buffer lines tagged, plus the
selected line's index relative to the scroll offset (saturating
subtraction); `([], none)` when the filtered view is empty or the
selection is out of range. -/
def get_context_for_selected (s : App) : List String × Option Nat :=
  if s.filtered_indices = [] ∨ s.filtered_indices.length ≤ s.selected_index then
    ([], none)
  else
    let originalIndex := s.filtered_indices.getD s.selected_index 0
    let context := (List.range s.output_lines.length).map
      (fun j => lineTag originalIndex j (s.output_lines.getD j ""))
    (context, some (originalIndex - s.preview_scroll))

/-- `App::get_visible_context`: slice the full context at
`[preview_scroll, min (preview_scroll + height) length)` and pass the
selected index through only when it falls inside those absolute bounds. -/
def get_visible_context (s : App) (height : Nat) : List String × Option Nat :=
  let ctx := get_context_for_selected s
  if ctx.1 = [] then ([], none)
  else
    let start := s.preview_scroll
    let stop := min (start + height) ctx.1.length
    let visible := (ctx.1.drop start).take (stop - start)
    let visSel :=
      match ctx.2 with
      | some idx => if start ≤ idx ∧ idx < stop then some (idx - start) else none
      | none => none
    (visible, visSel)

/-- The core operations driven by the main loop: `AppEvent::Output`
ingestion, a query commit (replace `search_query`, then
`App::update_search`, as the Input-panel key handler does), and the
Up/Down selection moves. -/
inductive Op where
  | append : String → Op
  | setQuery : String → Op
  | next : Op
  | prev : Op
deriving Repr, DecidableEq

/-- Apply one operation to the state. -/
def apply_op (c : ReCompile) (s : App) : Op → App
  | .append l => add_output c s l
  | .setQuery q => update_search c { s with search_query := q }
  | .next => select_next s
  | .prev => select_prev s

/-- Run a sequence of operations from the initial state. -/
def run (c : ReCompile) (ops : List Op) : App :=
  ops.foldl (apply_op c) App.init

/-- A concrete regex oracle used for witnesses and counterexamples: the
pattern `"("` fails to compile (unbalanced group) and any other pattern
matches exactly the lines equal to it. -/
def eqCompile : ReCompile :=
  fun q => if q = "(" then none else some (fun l => l == q)

/-- Events the process-capture worker (`command_handle` thread closure in
src/main.rs) sends over the channel. -/
inductive WEvent where
  | childPid : WEvent
  | output : String → WEvent
  | commandExit : Int → WEvent
deriving Repr, DecidableEq

/-- The stdout read loop of the worker: before forwarding each line it
reads the shared running flag (observation counter `k`); on observing
`false` it kills the child (`child.kill()`) and returns.  Returns the
events sent, whether a kill was attempted, and the next observation
index. -/
def read_lines (flag : Nat → Bool) : Nat → List String → List WEvent × Bool × Nat
  | k, [] => ([], false, k)
  | k, l :: ls =>
    if flag k then
      let rest := read_lines flag (k + 1) ls
      (WEvent.output l :: rest.1, rest.2.1, rest.2.2)
    else ([], true, k + 1)

/-- Outcome of one worker run: the events it sent, and whether it
attempted to kill the child itself. -/
structure WorkerRun where
  events : List WEvent
  killed : Bool
deriving Repr, DecidableEq

/-- The successful-spawn path of the worker thread: send `ChildPid`, check
the flag (kill and return on `false`), forward lines with a flag check
before each send, make one final flag check (kill and return on `false`),
then wait and send the exit code.  `flag k` is the value of the shared
running flag at its `k`-th read; the channel is modeled as always
accepting (the consumer is alive). -/
def run_worker (flag : Nat → Bool) (lines : List String) (exitCode : Int) :
    WorkerRun :=
  if flag 0 then
    if (read_lines flag 1 lines).2.1 then
      ⟨WEvent.childPid :: (read_lines flag 1 lines).1, true⟩
    else if flag (read_lines flag 1 lines).2.2 then
      ⟨WEvent.childPid :: (read_lines flag 1 lines).1 ++
        [WEvent.commandExit exitCode], false⟩
    else ⟨WEvent.childPid :: (read_lines flag 1 lines).1, true⟩
  else ⟨[WEvent.childPid], true⟩

/-! ### List access helpers -/

theorem getD_snoc_lt {α : Type} (xs : List α) (y d : α) {k : Nat}
    (h : k < xs.length) : (xs ++ [y]).getD k d = xs.getD k d := by
  have h' : k < (xs ++ [y]).length := by simp; omega
  rw [List.getD_eq_getElem _ _ h', List.getD_eq_getElem _ _ h,
    List.getElem_append_left h]

theorem getD_snoc_len {α : Type} (xs : List α) (y d : α) :
    (xs ++ [y]).getD xs.length d = y := by
  have h' : xs.length < (xs ++ [y]).length := by simp
  rw [List.getD_eq_getElem _ _ h',
    List.getElem_append_right (Nat.le_refl xs.length)]
  simp

theorem getD_map_lt {α β : Type} (f : α → β) (xs : List α) {k : Nat}
    (h : k < xs.length) (d : β) (d0 : α) :
    (xs.map f).getD k d = f (xs.getD k d0) := by
  have h' : k < (xs.map f).length := by simpa using h
  rw [List.getD_eq_getElem _ _ h', List.getD_eq_getElem _ _ h,
    List.getElem_map]

theorem getD_range {n k : Nat} (h : k < n) : (List.range n).getD k 0 = k := by
  have h' : k < (List.range n).length := by simpa using h
  rw [List.getD_eq_getElem _ _ h', List.getElem_range]

theorem getD_drop {α : Type} (xs : List α) (p k : Nat) (d : α) :
    (xs.drop p).getD k d = xs.getD (p + k) d := by
  induction xs generalizing p with
  | nil => simp
  | cons a t ih =>
    cases p with
    | zero => simp
    | succ p' =>
      have hidx : p' + 1 + k = (p' + k) + 1 := by omega
      rw [List.drop_succ_cons, hidx, List.getD_cons_succ, ih p']

theorem getD_take_lt {α : Type} (xs : List α) {t k : Nat} (h : k < t) (d : α) :
    (xs.take t).getD k d = xs.getD k d := by
  induction xs generalizing t k with
  | nil => simp
  | cons a l ih =>
    cases t with
    | zero => omega
    | succ t' =>
      cases k with
      | zero => simp
      | succ k' =>
        rw [List.take_succ_cons, List.getD_cons_succ, List.getD_cons_succ,
          ih (by omega)]

/-! ### Field lemmas for the state operations -/

theorem ups_output_lines (s : App) :
    (update_preview_scroll s).output_lines = s.output_lines := by
  unfold update_preview_scroll; split <;> rfl

theorem ups_filtered_lines (s : App) :
    (update_preview_scroll s).filtered_lines = s.filtered_lines := by
  unfold update_preview_scroll; split <;> rfl

theorem ups_filtered_indices (s : App) :
    (update_preview_scroll s).filtered_indices = s.filtered_indices := by
  unfold update_preview_scroll; split <;> rfl

theorem ups_selected_index (s : App) :
    (update_preview_scroll s).selected_index = s.selected_index := by
  unfold update_preview_scroll; split <;> rfl

theorem ups_search_query (s : App) :
    (update_preview_scroll s).search_query = s.search_query := by
  unfold update_preview_scroll; split <;> rfl

theorem ups_noop (s : App)
    (h : s.filtered_indices = [] ∨ s.filtered_indices.length ≤ s.selected_index) :
    update_preview_scroll s = s := by
  unfold update_preview_scroll; rw [if_pos h]

theorem ups_scroll (s : App) (hne : s.filtered_indices ≠ [])
    (hsel : s.selected_index < s.filtered_indices.length) :
    (update_preview_scroll s).preview_scroll =
      s.filtered_indices.getD s.selected_index 0 - 3 := by
  have hg : ¬(s.filtered_indices = [] ∨
      s.filtered_indices.length ≤ s.selected_index) := by
    push_neg; exact ⟨hne, hsel⟩
  unfold update_preview_scroll
  rw [if_neg hg]
  show (if 3 ≤ s.filtered_indices.getD s.selected_index 0 then
      s.filtered_indices.getD s.selected_index 0 - 3 else 0) =
    s.filtered_indices.getD s.selected_index 0 - 3
  split <;> omega

theorem add_output_cases (c : ReCompile) (s : App) (l : String) :
    add_output c s l =
      { s with output_lines := s.output_lines ++ [l],
               filtered_lines :=
                 s.filtered_lines ++ [formatLine s.output_lines.length l],
               filtered_indices :=
                 s.filtered_indices ++ [s.output_lines.length] } ∨
    add_output c s l = { s with output_lines := s.output_lines ++ [l] } := by
  unfold add_output
  split
  · left; rfl
  · split
    · split
      · left; rfl
      · right; rfl
    · right; rfl

theorem add_output_empty_query (c : ReCompile) (s : App) (l : String)
    (h : s.search_query = "") :
    add_output c s l =
      { s with output_lines := s.output_lines ++ [l],
               filtered_lines :=
                 s.filtered_lines ++ [formatLine s.output_lines.length l],
               filtered_indices :=
                 s.filtered_indices ++ [s.output_lines.length] } := by
  unfold add_output
  rw [if_pos h]

theorem add_output_selected_index (c : ReCompile) (s : App) (l : String) :
    (add_output c s l).selected_index = s.selected_index := by
  rcases add_output_cases c s l with h | h <;> rw [h]

theorem add_output_preview_scroll (c : ReCompile) (s : App) (l : String) :
    (add_output c s l).preview_scroll = s.preview_scroll := by
  rcases add_output_cases c s l with h | h <;> rw [h]

theorem add_output_output_lines (c : ReCompile) (s : App) (l : String) :
    (add_output c s l).output_lines = s.output_lines ++ [l] := by
  rcases add_output_cases c s l with h | h <;> rw [h]

theorem add_output_search_query (c : ReCompile) (s : App) (l : String) :
    (add_output c s l).search_query = s.search_query := by
  rcases add_output_cases c s l with h | h <;> rw [h]

theorem select_next_sel (s : App) (h : s.filtered_lines ≠ []) :
    (select_next s).selected_index =
      (s.selected_index + 1) % s.filtered_lines.length := by
  unfold select_next
  rw [if_neg h, ups_selected_index]

theorem select_next_filtered_lines (s : App) :
    (select_next s).filtered_lines = s.filtered_lines := by
  unfold select_next
  split
  · rfl
  · rw [ups_filtered_lines]

theorem select_next_filtered_indices (s : App) :
    (select_next s).filtered_indices = s.filtered_indices := by
  unfold select_next
  split
  · rfl
  · rw [ups_filtered_indices]

theorem select_next_output_lines (s : App) :
    (select_next s).output_lines = s.output_lines := by
  unfold select_next
  split
  · rfl
  · rw [ups_output_lines]

theorem select_prev_sel (s : App) (h : s.filtered_lines ≠ []) :
    (select_prev s).selected_index =
      if 0 < s.selected_index then s.selected_index - 1
      else s.filtered_lines.length - 1 := by
  unfold select_prev
  rw [if_neg h, ups_selected_index]

theorem select_prev_filtered_lines (s : App) :
    (select_prev s).filtered_lines = s.filtered_lines := by
  unfold select_prev
  split
  · rfl
  · rw [ups_filtered_lines]

theorem select_prev_filtered_indices (s : App) :
    (select_prev s).filtered_indices = s.filtered_indices := by
  unfold select_prev
  split
  · rfl
  · rw [ups_filtered_indices]

theorem select_prev_output_lines (s : App) :
    (select_prev s).output_lines = s.output_lines := by
  unfold select_prev
  split
  · rfl
  · rw [ups_output_lines]

/-! ### Characterization of the rescan loop -/

theorem rescan_eq (m : String → Bool) (ls : List String) : ∀ i : Nat,
    rescan m i ls =
      (((List.range ls.length).filter (fun j => m (ls.getD j ""))).map
          (fun j => formatLine (i + j) (ls.getD j "")),
        ((List.range ls.length).filter (fun j => m (ls.getD j ""))).map
          (fun j => i + j)) := by
  induction ls with
  | nil => intro i; simp [rescan]
  | cons l t ih =>
    intro i
    have hfil : List.filter (fun j => m ((l :: t).getD j ""))
          (List.map Nat.succ (List.range t.length)) =
        List.map Nat.succ
          (List.filter (fun j => m (t.getD j "")) (List.range t.length)) := by
      rw [List.filter_map]
      refine congrArg _ (List.filter_congr fun a _ => ?_)
      simp
    have hmapf : ∀ F : List Nat,
        List.map (fun j => formatLine (i + j) ((l :: t).getD j ""))
            (List.map Nat.succ F) =
          List.map (fun j => formatLine (i + 1 + j) (t.getD j "")) F := by
      intro F
      rw [List.map_map]
      refine List.map_congr_left fun a _ => ?_
      simp only [Function.comp_apply, List.getD_cons_succ]
      congr 1
      omega
    have hmapg : ∀ F : List Nat,
        List.map (fun j => i + j) (List.map Nat.succ F) =
          List.map (fun j => i + 1 + j) F := by
      intro F
      rw [List.map_map]
      refine List.map_congr_left fun a _ => ?_
      simp only [Function.comp_apply]
      omega
    rw [show rescan m i (l :: t) =
        (if m l then
          (formatLine i l :: (rescan m (i + 1) t).1, i :: (rescan m (i + 1) t).2)
        else rescan m (i + 1) t) from rfl]
    rw [List.length_cons, List.range_succ_eq_map, List.filter_cons]
    rw [show m ((l :: t).getD 0 "") = m l from by rw [List.getD_cons_zero]]
    rw [hfil, ih (i + 1)]
    cases hm : m l with
    | true =>
      rw [if_pos rfl, if_pos rfl, List.map_cons, List.map_cons, hmapf, hmapg]
      simp
    | false =>
      rw [if_neg (by simp), if_neg (by simp), hmapf, hmapg]

theorem rescan_indices_zero (m : String → Bool) (out : List String) :
    (rescan m 0 out).2 =
      (List.range out.length).filter (fun j => m (out.getD j "")) := by
  rw [rescan_eq]
  simp

theorem rescan_lines_zero (m : String → Bool) (out : List String) :
    (rescan m 0 out).1 =
      ((List.range out.length).filter (fun j => m (out.getD j ""))).map
        (fun j => formatLine j (out.getD j "")) := by
  rw [rescan_eq]
  simp

/-- The effective line predicate `update_search` filters with: everything
for an empty or non-compiling query, the compiled matcher otherwise. -/
def effective_matcher (c : ReCompile) (q : String) : String → Bool :=
  if q = "" then fun _ => true
  else
    match c q with
    | some m => m
    | none => fun _ => true

theorem effective_matcher_some (c : ReCompile) (q : String) (m : String → Bool)
    (hq : q ≠ "") (hc : c q = some m) : effective_matcher c q = m := by
  unfold effective_matcher
  rw [if_neg hq, hc]

theorem update_search_eq (c : ReCompile) (s : App) :
    update_search c s =
      update_preview_scroll
        { s with
          filtered_lines :=
            (rescan (effective_matcher c s.search_query) 0 s.output_lines).1,
          filtered_indices :=
            (rescan (effective_matcher c s.search_query) 0 s.output_lines).2,
          selected_index := 0 } := by
  by_cases hq : s.search_query = ""
  · simp only [update_search, effective_matcher, if_pos hq]
  · simp only [update_search, effective_matcher, if_neg hq]
    cases hc : c s.search_query with
    | some m => simp
    | none => simp

theorem update_search_selected_index (c : ReCompile) (s : App) :
    (update_search c s).selected_index = 0 := by
  rw [update_search_eq, ups_selected_index]

theorem update_search_filtered_indices (c : ReCompile) (s : App) :
    (update_search c s).filtered_indices =
      (rescan (effective_matcher c s.search_query) 0 s.output_lines).2 := by
  rw [update_search_eq, ups_filtered_indices]

theorem update_search_filtered_lines (c : ReCompile) (s : App) :
    (update_search c s).filtered_lines =
      (rescan (effective_matcher c s.search_query) 0 s.output_lines).1 := by
  rw [update_search_eq, ups_filtered_lines]

theorem update_search_output_lines (c : ReCompile) (s : App) :
    (update_search c s).output_lines = s.output_lines := by
  rw [update_search_eq, ups_output_lines]

theorem update_search_search_query (c : ReCompile) (s : App) :
    (update_search c s).search_query = s.search_query := by
  rw [update_search_eq, ups_search_query]

/-- The preview-scroll clause shared by claims about `update_search`: when
the rebuilt view is non-empty the scroll follows the freshly reset
selection (entry 0); when it is empty `update_preview_scroll` returns
early and the scroll keeps its previous value. -/
theorem ups_zero_sel (t : App) (h0 : t.selected_index = 0) :
    (update_preview_scroll t).preview_scroll =
      if t.filtered_indices = [] then t.preview_scroll
      else t.filtered_indices.getD 0 0 - 3 := by
  by_cases hne : t.filtered_indices = []
  · rw [if_pos hne, ups_noop t (Or.inl hne)]
  · rw [if_neg hne]
    have hsel : t.selected_index < t.filtered_indices.length := by
      rw [h0]
      exact List.length_pos.mpr hne
    rw [ups_scroll t hne hsel, h0]

theorem update_search_scroll (c : ReCompile) (s : App) :
    ((update_search c s).filtered_indices ≠ [] →
      (update_search c s).preview_scroll =
        (update_search c s).filtered_indices.getD 0 0 - 3) ∧
    ((update_search c s).filtered_indices = [] →
      (update_search c s).preview_scroll = s.preview_scroll) := by
  have hin := update_search_filtered_indices c s
  have key :
      (update_search c s).preview_scroll =
        if (rescan (effective_matcher c s.search_query) 0 s.output_lines).2 = []
        then s.preview_scroll
        else (rescan (effective_matcher c s.search_query) 0
            s.output_lines).2.getD 0 0 - 3 := by
    rw [update_search_eq]
    exact ups_zero_sel _ rfl
  constructor
  · intro hne
    rw [hin] at hne
    rw [key, if_neg hne, hin]
  · intro hemp
    rw [hin] at hemp
    rw [key, if_pos hemp]

/-- The invariant of claim C10 relating the display list, the index list
and the output buffer. -/
def Inv (s : App) : Prop :=
  s.filtered_lines.length = s.filtered_indices.length ∧
  ∀ k, k < s.filtered_indices.length →
    s.filtered_indices.getD k 0 < s.output_lines.length ∧
    s.filtered_lines.getD k "" =
      formatLine (s.filtered_indices.getD k 0)
        (s.output_lines.getD (s.filtered_indices.getD k 0) "")

theorem inv_init : Inv App.init :=
  ⟨rfl, fun _ hk => absurd hk (by simp [App.init])⟩

theorem inv_fields {s t : App} (h : Inv s) (h1 : t.output_lines = s.output_lines)
    (h2 : t.filtered_lines = s.filtered_lines)
    (h3 : t.filtered_indices = s.filtered_indices) : Inv t := by
  unfold Inv at h ⊢
  rw [h1, h2, h3]
  exact h

theorem inv_push {s : App} (h : Inv s) (l : String) :
    Inv { s with output_lines := s.output_lines ++ [l],
                 filtered_lines :=
                   s.filtered_lines ++ [formatLine s.output_lines.length l],
                 filtered_indices :=
                   s.filtered_indices ++ [s.output_lines.length] } := by
  obtain ⟨hlen, hk⟩ := h
  constructor
  · simp [hlen]
  · intro k hklt
    simp only [List.length_append, List.length_singleton] at hklt
    by_cases hlt : k < s.filtered_indices.length
    · obtain ⟨hb, hv⟩ := hk k hlt
      have hlt' : k < s.filtered_lines.length := by omega
      rw [getD_snoc_lt _ _ _ hlt, getD_snoc_lt _ _ _ hlt',
        getD_snoc_lt _ _ _ hb]
      constructor
      · simp only [List.length_append, List.length_singleton]
        omega
      · exact hv
    · have hkeq : k = s.filtered_indices.length := by omega
      subst hkeq
      constructor
      · rw [getD_snoc_len]
        simp
      · rw [getD_snoc_len, getD_snoc_len, ← hlen, getD_snoc_len]

theorem inv_ext_out {s : App} (h : Inv s) (l : String) :
    Inv { s with output_lines := s.output_lines ++ [l] } := by
  obtain ⟨hlen, hk⟩ := h
  refine ⟨hlen, fun k hklt => ?_⟩
  obtain ⟨hb, hv⟩ := hk k hklt
  constructor
  · simp only [List.length_append, List.length_singleton]
    omega
  · rw [getD_snoc_lt _ _ _ hb]
    exact hv

theorem inv_add_output {s : App} (h : Inv s) (c : ReCompile) (l : String) :
    Inv (add_output c s l) := by
  rcases add_output_cases c s l with h' | h' <;> rw [h']
  · exact inv_push h l
  · exact inv_ext_out h l

theorem inv_of_rescan (m : String → Bool) (t : App)
    (hl : t.filtered_lines = (rescan m 0 t.output_lines).1)
    (hi : t.filtered_indices = (rescan m 0 t.output_lines).2) : Inv t := by
  constructor
  · rw [hl, hi, rescan_lines_zero, rescan_indices_zero, List.length_map]
  · intro k hk
    rw [hi, rescan_indices_zero] at hk ⊢
    rw [hl, rescan_lines_zero]
    have hmem : ((List.range t.output_lines.length).filter
        (fun j => m (t.output_lines.getD j ""))).getD k 0 ∈
        (List.range t.output_lines.length).filter
          (fun j => m (t.output_lines.getD j "")) := by
      rw [List.getD_eq_getElem _ _ hk]
      exact List.getElem_mem hk
    have hrange : ((List.range t.output_lines.length).filter
        (fun j => m (t.output_lines.getD j ""))).getD k 0 <
        t.output_lines.length :=
      List.mem_range.mp ((List.mem_filter.mp hmem).1)
    exact ⟨hrange, getD_map_lt _ _ hk "" 0⟩

theorem inv_update_search (c : ReCompile) (s : App) : Inv (update_search c s) := by
  rw [update_search_eq]
  refine inv_of_rescan (effective_matcher c s.search_query) _ ?_ ?_
  · rw [ups_filtered_lines, ups_output_lines]
  · rw [ups_filtered_indices, ups_output_lines]

theorem inv_apply_op (c : ReCompile) {s : App} (h : Inv s) (op : Op) :
    Inv (apply_op c s op) := by
  cases op with
  | append l => exact inv_add_output h c l
  | setQuery q => exact inv_update_search c _
  | next =>
    exact inv_fields h (select_next_output_lines s) (select_next_filtered_lines s)
      (select_next_filtered_indices s)
  | prev =>
    exact inv_fields h (select_prev_output_lines s) (select_prev_filtered_lines s)
      (select_prev_filtered_indices s)

/-! ### Iterated selection moves -/

theorem select_next_iterate (s : App) (hne : s.filtered_lines ≠ [])
    (hsel : s.selected_index < s.filtered_lines.length) (k : Nat) :
    (select_next^[k] s).filtered_lines = s.filtered_lines ∧
    (select_next^[k] s).selected_index =
      (s.selected_index + k) % s.filtered_lines.length := by
  induction k with
  | zero =>
    refine ⟨rfl, ?_⟩
    rw [Function.iterate_zero_apply, Nat.add_zero, Nat.mod_eq_of_lt hsel]
  | succ k ih =>
    obtain ⟨hl, hs⟩ := ih
    rw [Function.iterate_succ_apply']
    have hne' : (select_next^[k] s).filtered_lines ≠ [] := by rw [hl]; exact hne
    refine ⟨?_, ?_⟩
    · rw [select_next_filtered_lines, hl]
    · rw [select_next_sel _ hne', hs, hl, Nat.mod_add_mod, Nat.add_assoc]

/-! ### The process-capture worker -/

theorem read_lines_all_true (flag : Nat → Bool) (h : ∀ j, flag j = true)
    (ls : List String) : ∀ k,
    read_lines flag k ls = (ls.map WEvent.output, false, k + ls.length) := by
  induction ls with
  | nil => intro k; simp [read_lines]
  | cons l t ih =>
    intro k
    rw [show read_lines flag k (l :: t) =
        (if flag k then
          (WEvent.output l :: (read_lines flag (k + 1) t).1,
            (read_lines flag (k + 1) t).2.1, (read_lines flag (k + 1) t).2.2)
        else ([], true, k + 1)) from rfl]
    rw [h k, if_pos rfl, ih (k + 1)]
    simp only [List.map_cons, List.length_cons]
    refine congrArg₂ Prod.mk rfl (congrArg₂ Prod.mk rfl ?_)
    omega

theorem read_lines_output_only (flag : Nat → Bool) (ls : List String) :
    ∀ k e, e ∈ (read_lines flag k ls).1 → ∃ l, e = WEvent.output l := by
  induction ls with
  | nil => intro k e he; simp [read_lines] at he
  | cons l t ih =>
    intro k e he
    rw [show read_lines flag k (l :: t) =
        (if flag k then
          (WEvent.output l :: (read_lines flag (k + 1) t).1,
            (read_lines flag (k + 1) t).2.1, (read_lines flag (k + 1) t).2.2)
        else ([], true, k + 1)) from rfl] at he
    by_cases hf : flag k
    · rw [if_pos hf] at he
      rcases List.mem_cons.mp he with h' | h'
      · exact ⟨l, h'⟩
      · exact ih (k + 1) e h'
    · rw [if_neg hf] at he
      simp at he

/-! ### Appends under an empty query -/

theorem add_output_empty_preserves (c : ReCompile) (ls : List String) :
    ∀ s : App, s.search_query = "" →
      s.filtered_indices = List.range s.output_lines.length →
      (ls.foldl (add_output c) s).search_query = "" ∧
      (ls.foldl (add_output c) s).output_lines.length =
        s.output_lines.length + ls.length ∧
      (ls.foldl (add_output c) s).filtered_indices =
        List.range (ls.foldl (add_output c) s).output_lines.length := by
  induction ls with
  | nil =>
    intro s hq hr
    exact ⟨hq, by simp, hr⟩
  | cons l t ih =>
    intro s hq hr
    rw [List.foldl_cons]
    obtain ⟨h1, h2, h3⟩ := ih (add_output c s l)
      (by rw [add_output_search_query]; exact hq)
      (by
        rw [add_output_empty_query c s l hq]
        show s.filtered_indices ++ [s.output_lines.length] =
          List.range (s.output_lines ++ [l]).length
        rw [hr, List.length_append, List.length_singleton, List.range_succ])
    refine ⟨h1, ?_, h3⟩
    rw [h2, add_output_output_lines, List.length_append, List.length_singleton,
      List.length_cons]
    omega

/-! ### The claims -/

/-- C1 (code bug): with the syntactically invalid query `"("` in place,
`add_output` buffers the arriving line but appends nothing to the filtered
view — unlike the empty-query behavior on the very same line, where the
new index is passed through.  `add_output` fails closed where the spec
(and `update_search`, which shows all lines for an invalid pattern) fail
open. -/
theorem c1_invalid_query_append_drops :
    (run eqCompile [Op.setQuery "(", Op.append "hello"]).output_lines =
      ["hello"] ∧
    (run eqCompile [Op.setQuery "(", Op.append "hello"]).filtered_indices = [] ∧
    (run eqCompile [Op.setQuery "(", Op.append "hello"]).filtered_lines = [] ∧
    (run eqCompile [Op.append "hello"]).filtered_indices = [0] := by
  decide

/-- C2 counterexample: a worker run that observes the cancellation flag
`false` at its very first check attempts to kill the child itself
(`child.kill()` in the thread closure), contradicting the claim that it
returns without delivering any kill. -/
theorem c2_cancelled_worker_kills_child :
    (run_worker (fun _ => false) ["line"] 0).killed = true ∧
    (run_worker (fun _ => false) ["line"] 0).events = [WEvent.childPid] := by
  decide

/-- C2 amended: when the worker observes the cancellation flag `false` it
stops forwarding lines, attempts to kill the child itself, and returns
without emitting the exit event; when the flag stays `true` it forwards
every line, never kills, and ends with the exit event. -/
theorem c2_worker_cancellation_behavior (flag : Nat → Bool)
    (lines : List String) (code : Int) :
    (flag 0 = false → run_worker flag lines code = ⟨[WEvent.childPid], true⟩) ∧
    ((∀ j, flag j = true) →
      run_worker flag lines code =
        ⟨WEvent.childPid :: lines.map WEvent.output ++
          [WEvent.commandExit code], false⟩) ∧
    ((run_worker flag lines code).killed = true →
      WEvent.commandExit code ∉ (run_worker flag lines code).events) := by
  refine ⟨?_, ?_, ?_⟩
  · intro h0
    unfold run_worker
    rw [h0, if_neg (by simp)]
  · intro hall
    unfold run_worker
    rw [read_lines_all_true flag hall lines 1]
    simp [hall]
  · intro hkill hmem
    unfold run_worker at hkill hmem
    by_cases h0 : flag 0 = true
    · rw [h0, if_pos rfl] at hkill hmem
      by_cases hr : (read_lines flag 1 lines).2.1 = true
      · rw [if_pos hr] at hmem
        rcases List.mem_cons.mp hmem with h' | h'
        · exact WEvent.noConfusion h'
        · obtain ⟨l0, hl0⟩ := read_lines_output_only flag lines 1 _ h'
          exact WEvent.noConfusion hl0
      · rw [if_neg hr] at hkill hmem
        by_cases hf : flag (read_lines flag 1 lines).2.2 = true
        · rw [if_pos hf] at hkill
          exact Bool.noConfusion hkill
        · rw [if_neg hf] at hmem
          rcases List.mem_cons.mp hmem with h' | h'
          · exact WEvent.noConfusion h'
          · obtain ⟨l0, hl0⟩ := read_lines_output_only flag lines 1 _ h'
            exact WEvent.noConfusion hl0
    · rw [if_neg h0] at hmem
      rcases List.mem_cons.mp hmem with h' | h'
      · exact WEvent.noConfusion h'
      · simp at h'

/-- Witness for the C2 amended theorem at a concrete run with the flag
held `true` throughout. -/
theorem c2_worker_cancellation_behavior_witness :
    run_worker (fun _ => true) ["x"] 5 =
      ⟨[WEvent.childPid, WEvent.output "x", WEvent.commandExit 5], false⟩ :=
  (c2_worker_cancellation_behavior (fun _ => true) ["x"] 5).2.1 (fun _ => rfl)

/-- C8: appending any sequence of lines to the initial state (whose query
is empty) leaves the filtered view as the identity index sequence
`0 .. n-1` in order. -/
theorem c8_empty_query_identity_view (c : ReCompile) (ls : List String) :
    (run c (ls.map Op.append)).filtered_indices = List.range ls.length := by
  have hfold : run c (ls.map Op.append) = ls.foldl (add_output c) App.init := by
    unfold run
    rw [List.foldl_map]
    rfl
  rw [hfold]
  obtain ⟨h1, h2, h3⟩ := add_output_empty_preserves c ls App.init rfl rfl
  rw [h3, h2]
  show List.range (List.length ([] : List String) + ls.length) = _
  rw [List.length_nil, Nat.zero_add]

/-- C9: processing an Exit(code) event sets the run state to
Exited(code) (`exit_code = some code`, `running = false`), and an Output
event processed afterwards appends its line to the buffer and is filtered
exactly as it would have been before the exit: `add_output` commutes with
`set_exit_code`. -/
theorem c9_exit_does_not_gate_appends (c : ReCompile) (s : App) (code : Int)
    (l : String) :
    (set_exit_code s code).exit_code = some code ∧
    (set_exit_code s code).running = false ∧
    add_output c (set_exit_code s code) l =
      set_exit_code (add_output c s l) code ∧
    (add_output c (set_exit_code s code) l).output_lines =
      s.output_lines ++ [l] := by
  refine ⟨rfl, rfl, ?_, ?_⟩
  · simp only [add_output, set_exit_code]
    by_cases hq : s.search_query = ""
    · simp [hq]
    · simp only [hq, if_false]
      cases hc : c s.search_query with
      | some m =>
        by_cases hm : m l = true
        · simp [hm]
        · simp [hm]
      | none => simp
  · rw [add_output_output_lines]
    rfl

/-- C10: in every state reachable from the initial state by the core
operations, `filtered_lines` and `filtered_indices` have equal length,
every stored index is a valid buffer index, and the k-th display line is
the buffer line at index `filtered_indices k` prefixed by its 1-based
line number in width-5 `"{:5} | "` form. -/
theorem c10_filtered_view_display_invariant (c : ReCompile) (ops : List Op) :
    Inv (run c ops) := by
  have hgen : ∀ ops' : List Op, ∀ s : App, Inv s →
      Inv (ops'.foldl (apply_op c) s) := by
    intro ops'
    induction ops' with
    | nil => exact fun _ h => h
    | cons op rest ih => exact fun s h => ih _ (inv_apply_op c h op)
  exact hgen ops App.init inv_init

/-- Witness for C10 at a concrete run. -/
theorem c10_filtered_view_display_invariant_witness :
    (run eqCompile [Op.append "hi"]).filtered_lines.length =
      (run eqCompile [Op.append "hi"]).filtered_indices.length ∧
    (run eqCompile [Op.append "hi"]).filtered_indices.getD 0 0 <
      (run eqCompile [Op.append "hi"]).output_lines.length ∧
    (run eqCompile [Op.append "hi"]).filtered_lines.getD 0 "" =
      formatLine ((run eqCompile [Op.append "hi"]).filtered_indices.getD 0 0)
        ((run eqCompile [Op.append "hi"]).output_lines.getD
          ((run eqCompile [Op.append "hi"]).filtered_indices.getD 0 0) "") := by
  have h := c10_filtered_view_display_invariant eqCompile [Op.append "hi"]
  exact ⟨h.1, (h.2 0 (by decide)).1, (h.2 0 (by decide)).2⟩

/-- C5: after committing a non-empty query whose pattern compiles,
`filtered_indices` is exactly the ascending list of buffer indices whose
line the matcher accepts, the selection is reset to 0, and the preview
scroll is recomputed from that selection (kept unchanged when the new view
is empty, where the scroll rule has no selected entry). -/
theorem c5_set_query_valid_pattern (c : ReCompile) (q : String)
    (m : String → Bool) (s : App) (hq : q ≠ "") (hc : c q = some m) :
    ((update_search c { s with search_query := q }).search_query = q) ∧
    ((update_search c { s with search_query := q }).filtered_indices =
      (List.range s.output_lines.length).filter
        (fun j => m (s.output_lines.getD j ""))) ∧
    List.Pairwise (fun a b => a < b)
      (update_search c { s with search_query := q }).filtered_indices ∧
    ((update_search c { s with search_query := q }).selected_index = 0) ∧
    ((update_search c { s with search_query := q }).filtered_indices ≠ [] →
      (update_search c { s with search_query := q }).preview_scroll =
        (update_search c
          { s with search_query := q }).filtered_indices.getD 0 0 - 3) ∧
    ((update_search c { s with search_query := q }).filtered_indices = [] →
      (update_search c { s with search_query := q }).preview_scroll =
        s.preview_scroll) := by
  have hm : effective_matcher c ({ s with search_query := q } : App).search_query
      = m := effective_matcher_some c q m hq hc
  have hind : (update_search c { s with search_query := q }).filtered_indices =
      (List.range s.output_lines.length).filter
        (fun j => m (s.output_lines.getD j "")) := by
    rw [update_search_filtered_indices, hm]
    exact rescan_indices_zero m s.output_lines
  refine ⟨?_, hind, ?_, ?_, ?_, ?_⟩
  · rw [update_search_search_query]
  · rw [hind]
    exact (List.pairwise_lt_range _).filter _
  · exact update_search_selected_index c _
  · exact (update_search_scroll c _).1
  · exact (update_search_scroll c _).2

/-- Witness for C5 on a concrete buffer and the pattern "b". -/
theorem c5_set_query_valid_pattern_witness :
    (update_search eqCompile
        { run eqCompile [Op.append "a", Op.append "b", Op.append "a"] with
          search_query := "b" }).filtered_indices =
      (List.range (run eqCompile [Op.append "a", Op.append "b",
          Op.append "a"]).output_lines.length).filter
        (fun j => (run eqCompile [Op.append "a", Op.append "b",
            Op.append "a"]).output_lines.getD j "" == "b") :=
  (c5_set_query_valid_pattern eqCompile "b" (fun l => l == "b")
    (run eqCompile [Op.append "a", Op.append "b", Op.append "a"])
    (by decide) rfl).2.1

/-- C7: with display and index lists of equal length (the reachable-state
invariant), n consecutive `select_next` calls on a view of length n > 0
return the selection to its starting value; `select_prev` from selection 0
yields n−1; and on an empty view both moves leave the state unchanged. -/
theorem c7_cyclic_selection (s : App)
    (hlen : s.filtered_lines.length = s.filtered_indices.length) :
    (s.filtered_indices ≠ [] → s.selected_index < s.filtered_indices.length →
      (select_next^[s.filtered_indices.length] s).selected_index =
        s.selected_index) ∧
    (s.filtered_indices ≠ [] → s.selected_index = 0 →
      (select_prev s).selected_index = s.filtered_indices.length - 1) ∧
    (s.filtered_indices = [] → select_next s = s ∧ select_prev s = s) := by
  refine ⟨?_, ?_, ?_⟩
  · intro hne hsel
    have hlne : s.filtered_lines ≠ [] := by
      intro h0
      apply hne
      rw [← List.length_eq_zero, ← hlen, h0]
      rfl
    have hsel' : s.selected_index < s.filtered_lines.length := by
      rw [hlen]
      exact hsel
    have h := (select_next_iterate s hlne hsel' s.filtered_indices.length).2
    rw [h, ← hlen, Nat.add_mod_right, Nat.mod_eq_of_lt hsel']
  · intro hne h0
    have hlne : s.filtered_lines ≠ [] := by
      intro hnil
      apply hne
      rw [← List.length_eq_zero, ← hlen, hnil]
      rfl
    rw [select_prev_sel s hlne, h0, if_neg (Nat.lt_irrefl 0), hlen]
  · intro hemp
    have hlemp : s.filtered_lines = [] := by
      rw [← List.length_eq_zero, hlen, hemp]
      rfl
    constructor
    · unfold select_next
      rw [if_pos hlemp]
    · unfold select_prev
      rw [if_pos hlemp]

/-- Witness for C7 on a two-entry view. -/
theorem c7_cyclic_selection_witness :
    (select_next^[(run eqCompile [Op.append "a",
        Op.append "b"]).filtered_indices.length]
      (run eqCompile [Op.append "a", Op.append "b"])).selected_index =
      (run eqCompile [Op.append "a", Op.append "b"]).selected_index ∧
    (select_prev (run eqCompile [Op.append "a", Op.append "b"])).selected_index =
      (run eqCompile [Op.append "a", Op.append "b"]).filtered_indices.length
        - 1 := by
  have h := c7_cyclic_selection (run eqCompile [Op.append "a", Op.append "b"])
    (by decide)
  exact ⟨h.1 (by decide) (by decide), h.2.1 (by decide) (by decide)⟩

/-- C4 counterexample: in the reachable state after appending "a","b",
moving the selection down once, and appending "c", the filtered view is
non-empty but the selection is still 1, not the 0 the claim demands after
a view mutation — `add_output` never re-clamps the selection. -/
theorem c4_append_does_not_reset_selection :
    (run eqCompile [Op.append "a", Op.append "b", Op.next,
        Op.append "c"]).filtered_indices ≠ [] ∧
    (run eqCompile [Op.append "a", Op.append "b", Op.next,
        Op.append "c"]).selected_index = 1 := by
  decide

/-- C4 amended: only `update_search` (setQuery) re-clamps — it resets the
selection to 0 unconditionally and recomputes the preview scroll from it
(keeping the old scroll when the new view is empty); `add_output` (append)
leaves both the selection and the preview scroll unchanged. -/
theorem c4_reclamp_behavior (c : ReCompile) (s : App) :
    (∀ q, (update_search c { s with search_query := q }).selected_index = 0 ∧
      ((update_search c { s with search_query := q }).filtered_indices ≠ [] →
        (update_search c { s with search_query := q }).preview_scroll =
          (update_search c
            { s with search_query := q }).filtered_indices.getD 0 0 - 3) ∧
      ((update_search c { s with search_query := q }).filtered_indices = [] →
        (update_search c { s with search_query := q }).preview_scroll =
          s.preview_scroll)) ∧
    (∀ l, (add_output c s l).selected_index = s.selected_index ∧
      (add_output c s l).preview_scroll = s.preview_scroll) := by
  constructor
  · intro q
    exact ⟨update_search_selected_index c _, (update_search_scroll c _).1,
      (update_search_scroll c _).2⟩
  · intro l
    exact ⟨add_output_selected_index c s l, add_output_preview_scroll c s l⟩

/-- Witness for the C4 amended theorem: committing "b" over a concrete
buffer re-clamps the selection and recomputes the scroll. -/
theorem c4_reclamp_behavior_witness :
    (update_search eqCompile
        { run eqCompile [Op.append "a", Op.append "a", Op.append "a",
            Op.append "a", Op.append "b"] with
          search_query := "b" }).preview_scroll =
      (update_search eqCompile
        { run eqCompile [Op.append "a", Op.append "a", Op.append "a",
            Op.append "a", Op.append "b"] with
          search_query := "b" }).filtered_indices.getD 0 0 - 3 :=
  ((c4_reclamp_behavior eqCompile
    (run eqCompile [Op.append "a", Op.append "a", Op.append "a",
      Op.append "a", Op.append "b"])).1 "b").2.1 (by decide)

/-- C6 counterexample: in the reachable state after setQuery "b" and
appends "a","a","a","a","b", the selected entry's buffer index is 4, yet
the preview scroll is 0 and not max(0, 4−3) = 1: an append that fills an
empty view never recomputes the scroll. -/
theorem c6_append_breaks_scroll_invariant :
    (run eqCompile [Op.setQuery "b", Op.append "a", Op.append "a",
        Op.append "a", Op.append "a", Op.append "b"]).filtered_indices ≠ [] ∧
    (run eqCompile [Op.setQuery "b", Op.append "a", Op.append "a",
        Op.append "a", Op.append "a", Op.append "b"]).selected_index = 0 ∧
    (run eqCompile [Op.setQuery "b", Op.append "a", Op.append "a",
        Op.append "a", Op.append "a",
        Op.append "b"]).filtered_indices.getD 0 0 = 4 ∧
    (run eqCompile [Op.setQuery "b", Op.append "a", Op.append "a",
        Op.append "a", Op.append "a", Op.append "b"]).preview_scroll = 0 ∧
    (run eqCompile [Op.setQuery "b", Op.append "a", Op.append "a",
        Op.append "a", Op.append "a", Op.append "b"]).preview_scroll ≠
      (run eqCompile [Op.setQuery "b", Op.append "a", Op.append "a",
          Op.append "a", Op.append "a",
          Op.append "b"]).filtered_indices.getD
        (run eqCompile [Op.setQuery "b", Op.append "a", Op.append "a",
            Op.append "a", Op.append "a",
            Op.append "b"]).selected_index 0 - 3 := by
  decide

/-- C6 amended: `select_next`, `select_prev` and `update_search` do
re-establish `PreviewScroll = max(0, i − 3)` for the entry they select
(when the resulting view is non-empty), and `add_output` preserves that
equality when the view was already non-empty; but `add_output` itself
never recomputes the scroll, so the invariant can fail right after an
append that changes the selected entry (see the counterexample). -/
theorem c6_scroll_rule_after_moves (s : App)
    (hlen : s.filtered_lines.length = s.filtered_indices.length)
    (hne : s.filtered_indices ≠ [])
    (hsel : s.selected_index < s.filtered_indices.length) :
    ((select_next s).preview_scroll =
      s.filtered_indices.getD
        ((s.selected_index + 1) % s.filtered_indices.length) 0 - 3) ∧
    ((select_prev s).preview_scroll =
      s.filtered_indices.getD
        (if 0 < s.selected_index then s.selected_index - 1
         else s.filtered_indices.length - 1) 0 - 3) ∧
    (∀ c q,
      (update_search c { s with search_query := q }).filtered_indices ≠ [] →
      (update_search c { s with search_query := q }).preview_scroll =
        (update_search c
          { s with search_query := q }).filtered_indices.getD 0 0 - 3) ∧
    (∀ c l, s.preview_scroll = s.filtered_indices.getD s.selected_index 0 - 3 →
      (add_output c s l).preview_scroll =
        (add_output c s l).filtered_indices.getD
          (add_output c s l).selected_index 0 - 3) := by
  have hlne : s.filtered_lines ≠ [] := by
    intro h0
    apply hne
    rw [← List.length_eq_zero, ← hlen, h0]
    rfl
  have hpos : 0 < s.filtered_lines.length := List.length_pos.mpr hlne
  refine ⟨?_, ?_, ?_, ?_⟩
  · rw [show select_next s = update_preview_scroll
        { s with selected_index :=
            (s.selected_index + 1) % s.filtered_lines.length }
      from by unfold select_next; rw [if_neg hlne]]
    have hlt : (s.selected_index + 1) % s.filtered_lines.length <
        s.filtered_indices.length := by
      have := Nat.mod_lt (s.selected_index + 1) hpos
      omega
    rw [ups_scroll
      { s with selected_index :=
          (s.selected_index + 1) % s.filtered_lines.length } hne hlt]
    show s.filtered_indices.getD
        ((s.selected_index + 1) % s.filtered_lines.length) 0 - 3 = _
    rw [hlen]
  · rw [show select_prev s = update_preview_scroll
        { s with selected_index :=
            if 0 < s.selected_index then s.selected_index - 1
            else s.filtered_lines.length - 1 }
      from by unfold select_prev; rw [if_neg hlne]]
    have hlt : (if 0 < s.selected_index then s.selected_index - 1
        else s.filtered_lines.length - 1) < s.filtered_indices.length := by
      split <;> omega
    rw [ups_scroll
      { s with selected_index :=
          if 0 < s.selected_index then s.selected_index - 1
          else s.filtered_lines.length - 1 } hne hlt]
    show s.filtered_indices.getD
        (if 0 < s.selected_index then s.selected_index - 1
         else s.filtered_lines.length - 1) 0 - 3 = _
    rw [hlen]
  · intro c q
    exact (update_search_scroll c _).1
  · intro c l hprev
    rw [add_output_preview_scroll, add_output_selected_index]
    rcases add_output_cases c s l with h' | h' <;> rw [h']
    · show s.preview_scroll =
        (s.filtered_indices ++ [s.output_lines.length]).getD
          s.selected_index 0 - 3
      rw [getD_snoc_lt _ _ _ hsel]
      exact hprev
    · exact hprev

/-- Witness for the C6 amended theorem on a concrete five-entry view. -/
theorem c6_scroll_rule_after_moves_witness :
    (select_next (run eqCompile [Op.append "a", Op.append "b", Op.append "c",
        Op.append "d", Op.append "e"])).preview_scroll =
      (run eqCompile [Op.append "a", Op.append "b", Op.append "c",
          Op.append "d", Op.append "e"]).filtered_indices.getD
        (((run eqCompile [Op.append "a", Op.append "b", Op.append "c",
              Op.append "d", Op.append "e"]).selected_index + 1) %
          (run eqCompile [Op.append "a", Op.append "b", Op.append "c",
              Op.append "d", Op.append "e"]).filtered_indices.length) 0 - 3 :=
  (c6_scroll_rule_after_moves
    (run eqCompile [Op.append "a", Op.append "b", Op.append "c",
      Op.append "d", Op.append "e"])
    (by decide) (by decide) (by decide)).1

/-- C3 counterexample: in the reachable state with buffer "a"×7,"b" and
query "b" the selected buffer index is 7, the scroll is 4, and 7 lies in
the window [4, 4+10); the claim then demands position `some (7 − 4) =
some 3`, but `get_visible_context` returns `none`: the code compares the
already scroll-relative index 3 against the absolute bounds [4, 8). -/
theorem c3_visible_window_selection_mismatch :
    (run eqCompile [Op.append "a", Op.append "a", Op.append "a",
        Op.append "a", Op.append "a", Op.append "a", Op.append "a",
        Op.append "b", Op.setQuery "b"]).preview_scroll = 4 ∧
    (run eqCompile [Op.append "a", Op.append "a", Op.append "a",
        Op.append "a", Op.append "a", Op.append "a", Op.append "a",
        Op.append "b", Op.setQuery "b"]).filtered_indices.getD
      (run eqCompile [Op.append "a", Op.append "a", Op.append "a",
          Op.append "a", Op.append "a", Op.append "a", Op.append "a",
          Op.append "b", Op.setQuery "b"]).selected_index 0 = 7 ∧
    4 ≤ (7 : Nat) ∧ (7 : Nat) < 4 + 10 ∧
    (get_visible_context
      (run eqCompile [Op.append "a", Op.append "a", Op.append "a",
          Op.append "a", Op.append "a", Op.append "a", Op.append "a",
          Op.append "b", Op.setQuery "b"]) 10).2 = none := by
  decide

/-- C3 amended: `get_visible_context height` does return the tagged
buffer slice `[PreviewScroll, min(PreviewScroll+height, bufferLength))`,
but the selected position it reports is `some ((i − PreviewScroll) −
PreviewScroll)` and only when the scroll-relative index `i −
PreviewScroll` — not the absolute index `i` — lies within the absolute
bounds `[PreviewScroll, min(PreviewScroll+height, bufferLength))`;
otherwise it reports "not visible" (`none`). -/
theorem c3_visible_window_behavior (s : App) (h : Nat)
    (hne : s.filtered_indices ≠ [])
    (hsel : s.selected_index < s.filtered_indices.length)
    (hoi : s.filtered_indices.getD s.selected_index 0 <
      s.output_lines.length) :
    (get_visible_context s h).1.length =
      min (s.preview_scroll + h) s.output_lines.length - s.preview_scroll ∧
    (∀ k, k < min (s.preview_scroll + h) s.output_lines.length -
        s.preview_scroll →
      (get_visible_context s h).1.getD k "" =
        lineTag (s.filtered_indices.getD s.selected_index 0)
          (s.preview_scroll + k)
          (s.output_lines.getD (s.preview_scroll + k) "")) ∧
    (get_visible_context s h).2 =
      (if s.preview_scroll ≤
            s.filtered_indices.getD s.selected_index 0 - s.preview_scroll ∧
          s.filtered_indices.getD s.selected_index 0 - s.preview_scroll <
            min (s.preview_scroll + h) s.output_lines.length
        then some (s.filtered_indices.getD s.selected_index 0 -
          s.preview_scroll - s.preview_scroll)
        else none) := by
  have hg : ¬(s.filtered_indices = [] ∨
      s.filtered_indices.length ≤ s.selected_index) := by
    push_neg
    exact ⟨hne, hsel⟩
  have hn : 0 < s.output_lines.length :=
    Nat.lt_of_le_of_lt (Nat.zero_le _) hoi
  have hctx : get_context_for_selected s =
      ((List.range s.output_lines.length).map
        (fun j => lineTag (s.filtered_indices.getD s.selected_index 0) j
          (s.output_lines.getD j "")),
       some (s.filtered_indices.getD s.selected_index 0 -
         s.preview_scroll)) := by
    unfold get_context_for_selected
    rw [if_neg hg]
  have hclen : ((List.range s.output_lines.length).map
      (fun j => lineTag (s.filtered_indices.getD s.selected_index 0) j
        (s.output_lines.getD j ""))).length = s.output_lines.length := by
    rw [List.length_map, List.length_range]
  have hcne : ((List.range s.output_lines.length).map
      (fun j => lineTag (s.filtered_indices.getD s.selected_index 0) j
        (s.output_lines.getD j ""))) ≠ [] :=
    List.length_pos.mp (by rw [hclen]; exact hn)
  refine ⟨?_, ?_, ?_⟩
  · simp only [get_visible_context, hctx]
    rw [if_neg hcne, hclen, List.length_take, List.length_drop, hclen]
    have hmin := Nat.min_le_right (s.preview_scroll + h) s.output_lines.length
    omega
  · intro k hk
    have hmin := Nat.min_le_right (s.preview_scroll + h) s.output_lines.length
    have hpk : s.preview_scroll + k < s.output_lines.length := by omega
    simp only [get_visible_context, hctx]
    rw [if_neg hcne, hclen, getD_take_lt _ hk, getD_drop,
      getD_map_lt _ _ (by rw [List.length_range]; exact hpk) "" 0,
      getD_range hpk]
  · simp only [get_visible_context, hctx]
    rw [if_neg hcne, hclen]

/-- Witness for the C3 amended theorem on a concrete two-line buffer. -/
theorem c3_visible_window_behavior_witness :
    (get_visible_context (run eqCompile [Op.append "a", Op.append "b"]) 5).2 =
      (if (run eqCompile [Op.append "a", Op.append "b"]).preview_scroll ≤
            (run eqCompile [Op.append "a",
                Op.append "b"]).filtered_indices.getD
              (run eqCompile [Op.append "a", Op.append "b"]).selected_index 0 -
              (run eqCompile [Op.append "a", Op.append "b"]).preview_scroll ∧
          (run eqCompile [Op.append "a", Op.append "b"]).filtered_indices.getD
              (run eqCompile [Op.append "a", Op.append "b"]).selected_index 0 -
              (run eqCompile [Op.append "a", Op.append "b"]).preview_scroll <
            min ((run eqCompile [Op.append "a",
                Op.append "b"]).preview_scroll + 5)
              (run eqCompile [Op.append "a",
                Op.append "b"]).output_lines.length
        then some ((run eqCompile [Op.append "a",
            Op.append "b"]).filtered_indices.getD
            (run eqCompile [Op.append "a", Op.append "b"]).selected_index 0 -
          (run eqCompile [Op.append "a", Op.append "b"]).preview_scroll -
          (run eqCompile [Op.append "a", Op.append "b"]).preview_scroll)
        else none) :=
  (c3_visible_window_behavior (run eqCompile [Op.append "a", Op.append "b"]) 5
    (by decide) (by decide) (by decide)).2.2

end StreamGrep
